import Mathlib

/-!
Verification development for the ReadThatPDF backend.

Shallow embedding of the core components in `src/backend`:
rate limiting (`rate_limiting/RateLimiter.py`), text segmentation and the
Celery tasks (`tasks.py`), schedule validation (`scheduling/validators.py`),
and the user scheduler (`scheduling/scheduler.py`).

Python floats are modelled with rationals, machine ints with `Nat`/`Int`,
Redis keys with option-valued fields of explicit state records, and
exceptions with `Except`-style results.  Wall-clock time is passed as an
explicit `now : Rat` parameter to every operation that reads the clock.
-/

namespace ReadThatPDF

/-! ### Token bucket — `rate_limiting/RateLimiter.py`, class `TokenBucket` -/

structure TokenBucket where
  capacity : ℚ
  refill_rate : ℚ
  tokens : ℚ
  last_refill : ℚ
deriving DecidableEq

namespace TokenBucket

/-- Lazy refill based on elapsed time since the last refill
(`TokenBucket._refill`).  The elapsed time is `now - last_refill`; the new
token count is clamped at `capacity`. -/
def _refill (now : ℚ) (b : TokenBucket) : TokenBucket :=
  { b with
    tokens := min b.capacity (b.tokens + (now - b.last_refill) * b.refill_rate)
    last_refill := now }

/-- `TokenBucket.consume`: refill, then decrement and report success iff
at least `required_tokens` are available, else leave the (refilled) count
unchanged and report failure. -/
def consume (now : ℚ) (required_tokens : ℚ) (b : TokenBucket) : Bool × TokenBucket :=
  let b1 := _refill now b
  if required_tokens ≤ b1.tokens then
    (true, { b1 with tokens := b1.tokens - required_tokens })
  else
    (false, b1)

/-- `TokenBucket.has_capacity`: refill, then report availability without
consuming.  The refill does mutate the bucket (tokens and timestamp). -/
def has_capacity (now : ℚ) (required_tokens : ℚ) (b : TokenBucket) : Bool × TokenBucket :=
  let b1 := _refill now b
  (decide (required_tokens ≤ b1.tokens), b1)

end TokenBucket

/-- Python `int()` applied to a float: truncation toward zero.  On the
normalised fraction `num/den` this is the truncated integer division of
the numerator by the (positive) denominator. -/
def pyInt (q : ℚ) : ℤ :=
  q.num.tdiv q.den

/-! ### LLM rate limiter — `rate_limiting/RateLimiter.py`, class `LLMRateLimiter` -/

structure RateLimitConfig where
  daily_request_limit : ℕ
  daily_token_limit : ℕ
  request_burst_capacity : ℚ
  request_refill_rate : ℚ
  token_burst_capacity : ℚ
  token_refill_rate : ℚ
  max_tokens_per_request : ℕ
  safety_buffer : ℚ
deriving DecidableEq

structure LLMRateLimiter where
  config : RateLimitConfig
  daily_requests_used : ℕ
  daily_tokens_used : ℕ
  daily_reset_time : ℚ
  request_bucket : TokenBucket
  token_bucket : TokenBucket
deriving DecidableEq

/-- `LLMRateLimiter._default_token_estimator`: `max(1, len(text) // 4) + 30`. -/
def _default_token_estimator (text : String) : ℕ :=
  max 1 (text.length / 4) + 30

/-- `LLMRateLimiter._get_next_daily_reset`: `(now // 86400 + 1) * 86400`. -/
def _get_next_daily_reset (now : ℚ) : ℚ :=
  ((⌊now / 86400⌋ + 1 : ℤ) : ℚ) * 86400

/-- `LLMRateLimiter._check_daily_reset`: zero the daily counters once the
reset boundary has passed. -/
def _check_daily_reset (now : ℚ) (s : LLMRateLimiter) : LLMRateLimiter :=
  if s.daily_reset_time ≤ now then
    { s with
      daily_requests_used := 0
      daily_tokens_used := 0
      daily_reset_time := _get_next_daily_reset now }
  else s

inductive CanProcessResult where
  | denied (reason : String)
  | allowed (estimated_tokens : ℕ) (buffered_tokens : ℤ)
deriving DecidableEq

/-- `LLMRateLimiter.can_process_request`.  Returns the decision together
with the mutated limiter (the daily-reset check and both bucket
`has_capacity` calls mutate state).  The buffer is computed with Python
`int()`, i.e. truncation, of `total * (1 + safety_buffer)`. -/
def can_process_request (now : ℚ) (text : String) (estimated_completion_tokens : ℕ)
    (s : LLMRateLimiter) : CanProcessResult × LLMRateLimiter :=
  let s0 := _check_daily_reset now s
  let prompt_tokens := _default_token_estimator text
  let total_estimated_tokens := prompt_tokens + estimated_completion_tokens
  let buffered_tokens : ℤ := pyInt ((total_estimated_tokens : ℚ) * (1 + s0.config.safety_buffer))
  if s0.config.daily_request_limit ≤ s0.daily_requests_used then
    (.denied "daily_request_limit_exceeded", s0)
  else if (s0.config.daily_token_limit : ℤ) < (s0.daily_tokens_used : ℤ) + buffered_tokens then
    (.denied "daily_token_limit_exceeded", s0)
  else
    let hc_req := s0.request_bucket.has_capacity now 1
    let s1 := { s0 with request_bucket := hc_req.2 }
    if !hc_req.1 then
      (.denied "request_rate_limit_exceeded", s1)
    else
      let hc_tok := s1.token_bucket.has_capacity now (buffered_tokens : ℚ)
      let s2 := { s1 with token_bucket := hc_tok.2 }
      if !hc_tok.1 then
        (.denied "token_rate_limit_exceeded", s2)
      else
        (.allowed total_estimated_tokens buffered_tokens, s2)

/-- `LLMRateLimiter.acquire_tokens`: re-run the pre-flight check, then
consume 1 from the request bucket and the buffered amount from the token
bucket; succeed only if both consumes succeed.  There is no rollback of
the request-bucket consume when the token-bucket consume fails. -/
def acquire_tokens (now : ℚ) (text : String) (estimated_completion_tokens : ℕ)
    (s : LLMRateLimiter) : Bool × LLMRateLimiter :=
  match can_process_request now text estimated_completion_tokens s with
  | (.denied _, s1) => (false, s1)
  | (.allowed _ buffered_tokens, s1) =>
    let c_req := s1.request_bucket.consume now 1
    let s2 := { s1 with request_bucket := c_req.2 }
    let c_tok := s2.token_bucket.consume now (buffered_tokens : ℚ)
    let s3 := { s2 with token_bucket := c_tok.2 }
    (c_req.1 && c_tok.1, s3)

/-- `acquire_tokens` with a concurrent competitor interleaved at the await
boundary between the pre-flight check and the bucket consumes: the
competitor drains `steal` units from the shared token bucket (a
`TokenBucket.consume` call issued by another coroutine).  This models the
race window the source itself flags in a comment on the failure branch
(a failed consume after a passing pre-flight check). -/
def acquire_tokens_raced (now : ℚ) (text : String) (estimated_completion_tokens : ℕ)
    (steal : ℚ) (s : LLMRateLimiter) : Bool × LLMRateLimiter :=
  match can_process_request now text estimated_completion_tokens s with
  | (.denied _, s1) => (false, s1)
  | (.allowed _ buffered_tokens, s1) =>
    let sr := { s1 with token_bucket := (s1.token_bucket.consume now steal).2 }
    let c_req := sr.request_bucket.consume now 1
    let s2 := { sr with request_bucket := c_req.2 }
    let c_tok := s2.token_bucket.consume now (buffered_tokens : ℚ)
    let s3 := { s2 with token_bucket := c_tok.2 }
    (c_req.1 && c_tok.1, s3)

/-! ### Text segmenter — `tasks.py`, `simple_chunk_text`

Text is modelled as `List Char`; `int(max_chars * 0.8)` is modelled as
`max_chars * 4 / 5` (exact for the values of interest; the Python float
product truncates to the same integer for these inputs). -/

/-- Python whitespace stripped by `str.strip()` (ASCII part). -/
def pyIsSpace (c : Char) : Bool :=
  c = ' ' || c = '\t' || c = '\n' || c = '\r' || c = Char.ofNat 11 || c = Char.ofNat 12

/-- `str.strip()`: drop leading and trailing whitespace. -/
def pyStrip (l : List Char) : List Char :=
  ((l.dropWhile pyIsSpace).reverse.dropWhile pyIsSpace).reverse

/-- The two-character sentence endings searched first:
`text[i-1:i+1] in [". ", "! ", "? "] or text[i-1:i+1] == "\n\n"`. -/
def isSentencePair (a b : Char) : Bool :=
  ((a = '.' || a = '!' || a = '?') && b = ' ') || (a = '\n' && b = '\n')

/-- The fallback break characters: `text[i] in ".!?\n "`. -/
def isBreakChar (c : Char) : Bool :=
  c = '.' || c = '!' || c = '?' || c = '\n' || c = ' '

/-- First backward search loop of `simple_chunk_text`:
`for i in range(end_pos, search_start, -1)`, testing the pair of
characters at `i-1, i`; on a hit `end_pos` becomes `i`.  The argument is
the current `i`; `lo` is `search_start` (exclusive lower end). -/
def findSentenceBreak (t : List Char) (lo : ℕ) : ℕ → Option ℕ
  | 0 => none
  | i + 1 =>
    if i + 1 ≤ lo then none
    else
      let hit :=
        match t[i]?, t[i+1]? with
        | some a, some b => isSentencePair a b
        | _, _ => false
      if hit then some (i + 1) else findSentenceBreak t lo i

/-- Second backward search loop of `simple_chunk_text`: same range,
testing the single character at index `i`; on a hit `end_pos` becomes
`i + 1`.  Note that the first probe is at `i = end_pos`, one position
past the window `[current_pos, end_pos)`. -/
def findCharBreak (t : List Char) (lo : ℕ) : ℕ → Option ℕ
  | 0 => none
  | i + 1 =>
    if i + 1 ≤ lo then none
    else
      let hit :=
        match t[i+1]? with
        | some c => isBreakChar c
        | none => false
      if hit then some (i + 1 + 1) else findCharBreak t lo i

/-- One iteration of the `while` loop of `simple_chunk_text`: compute the
cut position `end_pos` for the window starting at `current_pos`. -/
def chunkStep (t : List Char) (max_chars : ℕ) (current_pos : ℕ) : ℕ :=
  let end_pos := min (current_pos + max_chars) t.length
  if end_pos < t.length then
    let search_start := max (current_pos + max_chars * 4 / 5) (current_pos + 100)
    match findSentenceBreak t search_start end_pos with
    | some i => i
    | none =>
      match findCharBreak t search_start end_pos with
      | some i => i
      | none => end_pos
  else end_pos

/-- The `while current_pos < len(text)` loop of `simple_chunk_text`,
with explicit fuel.  `t.length` fuel steps suffice whenever
`1 ≤ max_chars`, because every iteration advances `current_pos`
(for `max_chars = 0` the Python loop does not terminate). -/
def chunkLoop (t : List Char) (max_chars : ℕ) : ℕ → ℕ → List (List Char)
  | _, 0 => []
  | current_pos, fuel + 1 =>
    if current_pos < t.length then
      let end_pos := chunkStep t max_chars current_pos
      let chunk := pyStrip ((t.drop current_pos).take (end_pos - current_pos))
      let rest := chunkLoop t max_chars end_pos fuel
      if chunk.isEmpty then rest else chunk :: rest
    else []

/-- `tasks.simple_chunk_text`. -/
def simple_chunk_text (t : List Char) (max_chars : ℕ) : List (List Char) :=
  if t.length ≤ max_chars then [t]
  else chunkLoop t max_chars 0 t.length

/-- Length of the longest run of characters none of which the segmenter
could break at (no sentence terminator, newline or space): auxiliary
fold carrying the current run length and the best so far. -/
def maxRunLenAux : List Char → ℕ → ℕ → ℕ
  | [], cur, best => max cur best
  | c :: rest, cur, best =>
    if isBreakChar c then maxRunLenAux rest 0 (max cur best)
    else maxRunLenAux rest (cur + 1) best

/-- Longest unbreakable run inside a chunk. -/
def maxRunLen (l : List Char) : ℕ :=
  maxRunLenAux l 0 0

/-! ### Schedule validator — `scheduling/validators.py` -/

/-- The `schedule_time` value: a well-formed `"H:M"` string (already
split into the two parsed integers), a malformed string (split or
`int()` raises `ValueError`), a dict with optional `hour`/`minute`
keys, or a value of any other type. -/
inductive PyScheduleTime where
  | str (hour minute : ℤ)
  | strMalformed
  | dict (hour minute : Option ℤ)
  | other
deriving DecidableEq

/-- `InvalidScheduleDataException` carrying its message. -/
inductive VErr where
  | invalidScheduleData (msg : String)
deriving DecidableEq

/-- `ScheduleValidator._validate_schedule_time`. -/
def _validate_schedule_time : PyScheduleTime → Except VErr Unit
  | .str hour minute =>
    if 0 ≤ hour ∧ hour ≤ 23 ∧ 0 ≤ minute ∧ minute ≤ 59 then .ok ()
    else .error (.invalidScheduleData "Invalid time format: hour must be 0-23, minute must be 0-59")
  | .strMalformed => .error (.invalidScheduleData "Invalid schedule_time format")
  | .dict h m =>
    let hour := h.getD 9
    let minute := m.getD 0
    if 0 ≤ hour ∧ hour ≤ 23 ∧ 0 ≤ minute ∧ minute ≤ 59 then .ok ()
    else .error (.invalidScheduleData "Invalid time format: hour must be 0-23, minute must be 0-59")
  | .other => .error (.invalidScheduleData "schedule_time must be string (HH:MM) or dict")

/-- The incoming `user_data` dict, with `none` for absent keys
(`total_chunks := none` also stands for a non-integer value, which the
`isinstance` check rejects the same way). -/
structure ScheduleUserData where
  user_id : Option String
  total_chunks : Option ℤ
  schedule_type : Option String
  user_timezone : Option String
  schedule_time : Option PyScheduleTime
  hours_interval : Option ℤ
  chunks_per_delivery : Option ℤ
  immediate_chunks_count : Option ℤ
deriving DecidableEq

/-- The values of `models.ScheduleType`.  Note the enum defines NO
`EVERY_N_HOURS` member, although `validators.py` line 53 and
`scheduler.py` line 287 refer to `ScheduleType.EVERY_N_HOURS`. -/
def scheduleTypeValues : List String :=
  ["daily", "twice_daily", "every_two_days", "monthly", "weekly", "none"]

/-- `ScheduleValidator.validate_schedule_data`, parametrised by the
`pytz.all_timezones` membership test.

Control flow follows the source: required `user_id`, positive integer
`total_chunks`, enum membership of a truthy `schedule_type`,
short-circuit on `"none"`, timezone fallback, `schedule_time`
validation — and then line 53 evaluates `ScheduleType.EVERY_N_HOURS`.
`models.ScheduleType` has no such member, so the comparison raises
`AttributeError`, which the blanket `except` on lines 76-78 converts
into `InvalidScheduleDataException`.  Everything after line 53 is
therefore unreachable, and every call with a schedule type other than
`"none"` that passes the earlier checks fails. -/
def validate_schedule_data (valid_timezones : String → Bool)
    (d : ScheduleUserData) : Except VErr ScheduleUserData :=
  if d.user_id = none ∨ d.user_id = some "" then
    .error (.invalidScheduleData "user_id is required")
  else
    match d.total_chunks with
    | none => .error (.invalidScheduleData "total_chunks must be a positive integer")
    | some n =>
      if n ≤ 0 then .error (.invalidScheduleData "total_chunks must be a positive integer")
      else
        let stBad : Bool :=
          match d.schedule_type with
          | some st => !(st = "") && !(scheduleTypeValues.contains st)
          | none => false
        if stBad then .error (.invalidScheduleData "Invalid schedule_type")
        else if d.schedule_type = some "none" then .ok d
        else
          let tz := d.user_timezone.getD "Asia/Kolkata"
          let d1 :=
            if valid_timezones tz then d
            else { d with user_timezone := some "Asia/Kolkata" }
          match d1.schedule_time with
          | some st =>
            match _validate_schedule_time st with
            | .error e => .error e
            | .ok _ =>
              .error (.invalidScheduleData
                "type object ScheduleType has no attribute EVERY_N_HOURS")
          | none =>
            .error (.invalidScheduleData
              "type object ScheduleType has no attribute EVERY_N_HOURS")

/-! ### User scheduler state — `scheduling/scheduler.py` and `tasks.py`

One subject (user) is modelled; the per-user Redis keys
`user_chunks:{id}`, `user_progress:{id}`, `user_schedule:{id}` become
option-valued fields, and the Celery beat table becomes the list of
registered task names.  All operations below model the non-raising
store paths (a raising store makes the Python wrappers return
`False`/`None`, noted per claim where relevant). -/

structure Chunk where
  index : ℕ
  text : String
  token_count : ℕ
deriving DecidableEq

structure UserChunksData where
  email : String
  chunks : List Chunk
deriving DecidableEq

structure ScheduleMetadata where
  task_name : String
  status : String
  completed_at : Option String
deriving DecidableEq

structure ProgressState where
  current_index : ℕ
  processed_count : ℕ
  last_task_id : Option String
deriving DecidableEq

structure SchedulerState where
  user_chunks : Option UserChunksData
  user_progress : Option ProgressState
  user_schedule : Option ScheduleMetadata
  beat_schedule : List String
deriving DecidableEq

/-- `UserScheduler.cleanup_user_schedule` (non-raising path): if schedule
metadata exists, deregister the beat job named in it, flip the status to
`completed` and stamp `completed_at`; in every case delete the progress
key and return `True`.  (`False` is returned only when a store operation
raises.) -/
def cleanup_user_schedule (now_iso : String) (s : SchedulerState) : Bool × SchedulerState :=
  let s1 :=
    match s.user_schedule with
    | some meta =>
      let s0 :=
        if s.beat_schedule.contains meta.task_name then
          { s with beat_schedule := s.beat_schedule.erase meta.task_name }
        else s
      { s0 with
        user_schedule := some { meta with status := "completed", completed_at := some now_iso } }
    | none => s
  (true, { s1 with user_progress := none })

/-- `UserScheduler.get_user_processing_state`: current index and
processed count, with `(start_index, 0)` as the default. -/
def get_user_processing_state (s : SchedulerState) (start_index : ℕ) : ℕ × ℕ :=
  match s.user_progress with
  | some p => (p.current_index, p.processed_count)
  | none => (start_index, 0)

/-- `UserScheduler.update_user_progress` (non-raising path). -/
def update_user_progress (s : SchedulerState) (new_index processed_count : ℕ)
    (task_id : String) : Bool × SchedulerState :=
  (true,
   { s with
     user_progress := some
       { current_index := new_index
         processed_count := processed_count
         last_task_id := some task_id } })

inductive ScheduledResult where
  | user_data_not_found
  | completed (total_processed : ℕ)
  | batch_queued (dispatched : List Chunk) (total_processed : ℕ) (remaining : ℕ)
deriving DecidableEq

/-- `tasks.process_scheduled_chunks`.  The three missing-data guards of
the source (no `get_user_chunks` result, no raw `user_chunks` key, empty
`chunks` list) collapse to the two conditions on the single modelled
store.  `dispatched` is the slice handed to `generate_insights.delay`;
`task_id` is the id Celery assigns to that dispatched task. -/
def process_scheduled_chunks (now_iso task_id : String)
    (chunks_per_delivery start_index : ℕ)
    (s : SchedulerState) : ScheduledResult × SchedulerState :=
  match s.user_chunks with
  | none => (.user_data_not_found, (cleanup_user_schedule now_iso s).2)
  | some data =>
    if data.chunks = [] then
      (.user_data_not_found, (cleanup_user_schedule now_iso s).2)
    else
      let st := get_user_processing_state s start_index
      let current_index := st.1
      let processed_count := st.2
      let end_index := min (current_index + chunks_per_delivery) data.chunks.length
      let chunks_to_process := (data.chunks.drop current_index).take (end_index - current_index)
      if chunks_to_process = [] then
        (.completed processed_count, (cleanup_user_schedule now_iso s).2)
      else
        let new_processed_count := processed_count + chunks_to_process.length
        (.batch_queued chunks_to_process new_processed_count
           (data.chunks.length - end_index),
         (update_user_progress s end_index new_processed_count task_id).2)

/-! ### Idempotent email notification — `tasks.py`, `send_email_chunk`

State for one `(user_id, chunk_index)` pair: the Redis idempotency
marker `email_sent:{user_id}:{chunk_index}` and the number of messages
the SMTP transport has accepted.  A call is parametrised by whether the
Redis/user-data lookups succeed (`lookup_ok`) and whether the SMTP send
succeeds (`send_ok`); lookup failures and transport failures both hit
the blanket `except` that re-raises via `self.retry`. -/

inductive EmailResult where
  | already_sent
  | sent
  | retry_raised
deriving DecidableEq

structure EmailEnv where
  marker : Bool
  messages_sent : ℕ
deriving DecidableEq

/-- `tasks.send_email_chunk` for a fixed `(user_id, chunk_index)` pair:
short-circuit on the marker; otherwise load data and send; write the
marker only after the transport accepted the message. -/
def send_email_chunk (lookup_ok send_ok : Bool) (s : EmailEnv) : EmailResult × EmailEnv :=
  if s.marker then
    (.already_sent, s)
  else if !lookup_ok then
    (.retry_raised, s)
  else if send_ok then
    (.sent, { marker := true, messages_sent := s.messages_sent + 1 })
  else
    (.retry_raised, s)

/-! ### Insight merge — `tasks.py`, `generate_insights` (lines 316-331)

The Python dict `existing_map` is modelled as an association list with
insertion order and key replacement; `sorted(existing_map.keys())` is
modelled with `List.insertionSort`. -/

structure InsightRecord where
  chunk_index : ℕ
  insight : Option String
  error : Option String
deriving DecidableEq

/-- Key-presence test on the association-list model of the Python dict. -/
def hasKey (m : List (ℕ × InsightRecord)) (k : ℕ) : Bool :=
  match m with
  | [] => false
  | p :: ps => if p.1 = k then true else hasKey ps k

/-- Python `m[k] = v` on a dict: replace the binding if the key is
present, else append it (insertion order preserved, as in CPython). -/
def dictSet (m : List (ℕ × InsightRecord)) (k : ℕ) (v : InsightRecord) :
    List (ℕ × InsightRecord) :=
  if hasKey m k then
    m.map (fun p => if p.1 = k then (k, v) else p)
  else m ++ [(k, v)]

/-- Building a dict keyed by `chunk_index` from a list of records, in
list order (`existing_map = {r.get("chunk_index"): r for r in existing}`
and the subsequent update loop). -/
def dictOfRecords (init : List (ℕ × InsightRecord)) (rs : List InsightRecord) :
    List (ℕ × InsightRecord) :=
  rs.foldl (fun m r => dictSet m r.chunk_index r) init

/-- Python `m[k]` / key lookup. -/
def dictGet (m : List (ℕ × InsightRecord)) (k : ℕ) : Option InsightRecord :=
  match m with
  | [] => none
  | p :: ps => if p.1 = k then some p.2 else dictGet ps k

/-- The merge performed by `generate_insights` before persisting:
`final_results = [existing_map[k] for k in sorted(existing_map.keys())]`
after folding first the previously stored records, then the fresh
results, into the dict. -/
def mergeInsights (existing results : List InsightRecord) : List InsightRecord :=
  let final_map := dictOfRecords (dictOfRecords [] existing) results
  let sorted_keys := (final_map.map Prod.fst).insertionSort (· ≤ ·)
  sorted_keys.filterMap (dictGet final_map)

/-- The latest write for a chunk index in a sequence of writes: the last
record in the list carrying that index. -/
def lastWrite (l : List InsightRecord) (k : ℕ) : Option InsightRecord :=
  match l with
  | [] => none
  | r :: rs =>
    match lastWrite rs k with
    | some x => some x
    | none => if r.chunk_index = k then some r else none

/-- Every binding of the dict maps a key to a record carrying that key
as its chunk index. -/
def goodMap (m : List (ℕ × InsightRecord)) : Prop :=
  ∀ p ∈ m, p.2.chunk_index = p.1

/-! ### Concrete states used by the claims -/

/-- The production `RateLimitConfig` built in `tasks.py` (lines 115-124). -/
def prodConfig : RateLimitConfig :=
  { daily_request_limit := 1000
    daily_token_limit := 200000
    request_burst_capacity := 5
    request_refill_rate := 1/2
    token_burst_capacity := 8000
    token_refill_rate := 1000
    max_tokens_per_request := 1700
    safety_buffer := 1/10 }

/-- A freshly constructed limiter over `prodConfig` whose next daily
reset lies in the future (construction time 0, reset at the next UTC
midnight). -/
def freshLimiter : LLMRateLimiter :=
  { config := prodConfig
    daily_requests_used := 0
    daily_tokens_used := 0
    daily_reset_time := 86400
    request_bucket := ⟨5, 1/2, 5, 0⟩
    token_bucket := ⟨8000, 1000, 8000, 0⟩ }

/-- A limiter whose daily request counter sits exactly at its limit but
whose reset boundary has already passed (`daily_reset_time = 0`). -/
def exhaustedPastResetLimiter : LLMRateLimiter :=
  { config := { prodConfig with daily_request_limit := 1 }
    daily_requests_used := 1
    daily_tokens_used := 0
    daily_reset_time := 0
    request_bucket := ⟨5, 1/2, 5, 0⟩
    token_bucket := ⟨8000, 1000, 8000, 0⟩ }

/-- A limiter at its daily request limit with the reset boundary still
in the future. -/
def exhaustedLimiter : LLMRateLimiter :=
  { freshLimiter with daily_requests_used := 1000 }

/-! ## Claim theorems -/

/-! ### C3 — token bucket consume -/

/-- Claim C3: `consume(n)` first refills by
`tokens = min(capacity, tokens + elapsed_seconds * refill_rate)`, then
succeeds and decrements by exactly `n` iff the refilled count is at
least `n`, and otherwise fails leaving the (refilled) count unchanged. -/
theorem tokenBucket_consume_spec (b : TokenBucket) (now n : ℚ) :
    ((b._refill now).tokens
        = min b.capacity (b.tokens + (now - b.last_refill) * b.refill_rate))
    ∧ ((b.consume now n).1 = true ↔ n ≤ (b._refill now).tokens)
    ∧ ((b.consume now n).1 = true →
        (b.consume now n).2.tokens = (b._refill now).tokens - n)
    ∧ ((b.consume now n).1 = false →
        (b.consume now n).2.tokens = (b._refill now).tokens) := by
  refine ⟨rfl, ?_, ?_, ?_⟩ <;>
    · by_cases h : n ≤ (b._refill now).tokens <;>
        simp [TokenBucket.consume, h]

/-- Witness for C3 on a concrete bucket: capacity 10, refill rate 1,
5 tokens at time 0; consuming 3 at time 2 succeeds and leaves
`min 10 (5 + 2*1) - 3` tokens. -/
theorem tokenBucket_consume_spec_witness :
    ((⟨10, 1, 5, 0⟩ : TokenBucket).consume 2 3).2.tokens
      = ((⟨10, 1, 5, 0⟩ : TokenBucket)._refill 2).tokens - 3 :=
  (tokenBucket_consume_spec ⟨10, 1, 5, 0⟩ 2 3).2.2.1 (by with_unfolding_all decide)

/-! ### C4 — buffered token computation -/

/-- Claim C4 counterexample: on a fresh limiter and a 4-character text
(estimate 31), `can_process_request` allows the request with a buffered
value of 34, but `ceil(31 * (1 + 0.1)) = 35`.  The code computes the
buffer with Python `int()`, which truncates instead of rounding up. -/
theorem can_process_buffered_not_ceil :
    (can_process_request 0 "abcd" 0 freshLimiter).1 = .allowed 31 34
    ∧ (⌈((31 : ℕ) : ℚ) * (1 + freshLimiter.config.safety_buffer)⌉ : ℤ) ≠ 34 := by
  constructor
  · with_unfolding_all decide
  · have hsb : freshLimiter.config.safety_buffer = 1/10 := rfl
    have hceil : (⌈((31 : ℕ) : ℚ) * (1 + 1/10)⌉ : ℤ) = 35 := by
      rw [Int.ceil_eq_iff]
      constructor <;> norm_num
    rw [hsb, hceil]
    decide

/-- Claim C4 as amended: whenever `can_process_request` allows, the
buffered value it returns is the Python `int()` truncation of
`(estimate(text) + estimated_completion_tokens) * (1 + safety_buffer)`
(the floor, for these non-negative quantities), not the ceiling. -/
theorem can_process_buffered_eq_trunc (now : ℚ) (text : String) (est : ℕ)
    (s : LLMRateLimiter) (e : ℕ) (b : ℤ)
    (h : (can_process_request now text est s).1 = .allowed e b) :
    e = _default_token_estimator text + est
    ∧ b = pyInt ((e : ℚ) * (1 + s.config.safety_buffer)) := by
  have hcfg : (_check_daily_reset now s).config = s.config := by
    unfold _check_daily_reset
    split <;> rfl
  rw [can_process_request] at h
  dsimp only at h
  repeat' split at h
  all_goals try exact CanProcessResult.noConfusion h
  obtain ⟨rfl, rfl⟩ := CanProcessResult.allowed.inj h
  exact ⟨rfl, by rw [hcfg]⟩

/-- Witness for the amended C4 at the counterexample input. -/
theorem can_process_buffered_eq_trunc_witness :
    (31 : ℕ) = _default_token_estimator "abcd" + 0
    ∧ (34 : ℤ) = pyInt (((31 : ℕ) : ℚ) * (1 + freshLimiter.config.safety_buffer)) :=
  can_process_buffered_eq_trunc 0 "abcd" 0 freshLimiter 31 34
    (by with_unfolding_all decide)

/-! ### C9 — acquire at the daily request limit -/

/-- Claim C9 counterexample: with the daily request counter at its limit
but the reset boundary already passed, `acquire_tokens` lazily resets the
counters and succeeds. -/
theorem acquire_after_reset_counterexample :
    exhaustedPastResetLimiter.config.daily_request_limit
        ≤ exhaustedPastResetLimiter.daily_requests_used
    ∧ (acquire_tokens 0 "abcd" 0 exhaustedPastResetLimiter).1 = true := by
  exact ⟨by decide, by with_unfolding_all decide⟩

/-- Claim C9 as amended: as long as the daily reset boundary has not
passed, `acquire_tokens` never succeeds while the daily request counter
has reached the daily request limit. -/
theorem acquire_denied_at_daily_limit (now : ℚ) (text : String) (est : ℕ)
    (s : LLMRateLimiter)
    (hlim : s.config.daily_request_limit ≤ s.daily_requests_used)
    (hday : now < s.daily_reset_time) :
    (acquire_tokens now text est s).1 = false := by
  rw [acquire_tokens, can_process_request, _check_daily_reset,
    if_neg (not_le.mpr hday), if_pos hlim]

/-- Witness for the amended C9: a limiter with 1000 of 1000 daily
requests used and the reset still ahead denies acquisition. -/
theorem acquire_denied_at_daily_limit_witness :
    (acquire_tokens 0 "abcd" 0 exhaustedLimiter).1 = false :=
  acquire_denied_at_daily_limit 0 "abcd" 0 exhaustedLimiter (by decide)
    (by with_unfolding_all decide)

/-! ### C10 — non-atomicity of acquire across the two buckets -/

/-- Claim C10: `acquire_tokens` is not atomic across its two buckets.
On a fresh limiter the pre-flight check allows (buffered 34); a
concurrent consumer then drains the token bucket (8000 units) inside the
race window; the call consumes 1 from the request bucket, fails the
token-bucket consume, returns failure — and the request bucket is left
one unit short (5 - 1 = 4), never restored. -/
theorem acquire_tokens_not_atomic :
    (can_process_request 0 "abcd" 0 freshLimiter).1 = .allowed 31 34
    ∧ (acquire_tokens_raced 0 "abcd" 0 8000 freshLimiter).1 = false
    ∧ (acquire_tokens_raced 0 "abcd" 0 8000 freshLimiter).2.request_bucket.tokens
        = freshLimiter.request_bucket.tokens - 1 := by
  with_unfolding_all decide

/-! ### C6 — segmenter chunk-size bound -/

/-- A 104-character text: 50 letters, a space, 50 letters, a period,
two letters.  Its longest unbreakable run is 50 characters. -/
def c6Text : List Char :=
  List.replicate 50 'a' ++ [' '] ++ List.replicate 50 'a' ++ ['.', 'a', 'a']

/-- Claim C6 refuted on the code: with `max_chars = 101` the segmenter
emits a 102-character chunk from `c6Text`, although the chunk contains a
space and its longest unbreakable run is only 50 characters.  The second
backward search probes `text[end_pos]`, one position past the window,
and on a hit sets the cut to `end_pos + 1`, producing a chunk of
`max_chars + 1` characters. -/
theorem simple_chunk_text_exceeds_max_chars :
    101 < c6Text.length
    ∧ ∃ c ∈ simple_chunk_text c6Text 101,
        101 < c.length ∧ maxRunLen c ≤ 101 ∧ ' ' ∈ c := by
  decide

/-! ### C1 — schedule validation of a well-formed daily request -/

/-- A fully well-formed schedule request: non-empty subject id, positive
chunk count, schedule type `daily`, time 09:00, timezone UTC. -/
def c1Input : ScheduleUserData :=
  { user_id := some "user1"
    total_chunks := some 3
    schedule_type := some "daily"
    user_timezone := some "UTC"
    schedule_time := some (.str 9 0)
    hours_interval := none
    chunks_per_delivery := some 2
    immediate_chunks_count := some 0 }

/-- Claim C1 evaluated at a well-formed daily request: validation fails
with `InvalidScheduleData` although every field is valid, because
`validators.py` line 53 references the missing enum member
`ScheduleType.EVERY_N_HOURS` (an `AttributeError` swallowed by the
blanket handler) on every path with a schedule type other than
`"none"`. -/
theorem validate_schedule_data_raises_on_daily :
    validate_schedule_data (fun tz => tz == "UTC") c1Input
      = .error (.invalidScheduleData
          "type object ScheduleType has no attribute EVERY_N_HOURS") := rfl

/-! ### C5 — cancelling with no schedule metadata -/

/-- A store with no schedule metadata (and some leftover progress). -/
def c5State : SchedulerState :=
  { user_chunks := none
    user_progress := some ⟨0, 0, none⟩
    user_schedule := none
    beat_schedule := [] }

/-- Claim C5 counterexample: with no schedule metadata in the store,
`cleanup_user_schedule` returns `True`, not `False` as the claim
states; the source returns `False` only out of its `except` handler. -/
theorem cleanup_no_metadata_returns_true :
    c5State.user_schedule = none
    ∧ (cleanup_user_schedule "2026-01-01T00:00:00" c5State).1 = true := by
  decide

/-- Claim C5 as amended: for every subject with no schedule metadata,
`cleanup_user_schedule` still returns `True` and merely deletes the
progress key (an idempotent no-op; nothing reports "not found"). -/
theorem cleanup_no_metadata_spec (now_iso : String) (s : SchedulerState)
    (h : s.user_schedule = none) :
    cleanup_user_schedule now_iso s = (true, { s with user_progress := none }) := by
  simp [cleanup_user_schedule, h]

/-- Witness for the amended C5 at the concrete metadata-free store. -/
theorem cleanup_no_metadata_spec_witness :
    cleanup_user_schedule "2026-01-02T00:00:00" c5State
      = (true, { c5State with user_progress := none }) :=
  cleanup_no_metadata_spec "2026-01-02T00:00:00" c5State rfl

/-! ### C7 — periodic batch processing -/

/-- Claim C7: on a firing with the chunk data present, the task computes
`end = min(current_index + chunks_per_delivery, total_chunks)`; when the
slice `[current_index, end)` is empty it cancels the schedule and
returns a completion status with the final processed count, and
otherwise it dispatches exactly that slice and persists progress with
`current_index = end` and the processed count increased by the slice
size. -/
theorem process_scheduled_chunks_spec (now_iso task_id : String)
    (cpd si : ℕ) (s : SchedulerState) (data : UserChunksData)
    (hchunks : s.user_chunks = some data) (hne : data.chunks ≠ []) :
    let ci := (get_user_processing_state s si).1
    let pc := (get_user_processing_state s si).2
    let e := min (ci + cpd) data.chunks.length
    let slice := (data.chunks.drop ci).take (e - ci)
    process_scheduled_chunks now_iso task_id cpd si s
      = if slice = [] then
          (.completed pc, (cleanup_user_schedule now_iso s).2)
        else
          (.batch_queued slice (pc + slice.length) (data.chunks.length - e),
           { s with user_progress := some ⟨e, pc + slice.length, some task_id⟩ }) := by
  rw [process_scheduled_chunks, hchunks]
  dsimp only
  rw [if_neg hne]
  by_cases hs : (data.chunks.drop (get_user_processing_state s si).1).take
      (min ((get_user_processing_state s si).1 + cpd) data.chunks.length
        - (get_user_processing_state s si).1) = []
  · rw [if_pos hs, if_pos hs]
  · rw [if_neg hs, if_neg hs]
    simp [update_user_progress, hchunks]

/-- A store mid-way through a 3-chunk schedule: progress at index 1 with
1 chunk processed. -/
def c7State : SchedulerState :=
  { user_chunks := some ⟨"u@example.com", [⟨0, "a", 1⟩, ⟨1, "b", 1⟩, ⟨2, "c", 1⟩]⟩
    user_progress := some ⟨1, 1, some "t0"⟩
    user_schedule := some ⟨"process_user_chunks_u1", "active", none⟩
    beat_schedule := ["process_user_chunks_u1"] }

/-- Witness for C7: firing with `chunks_per_delivery = 2` on `c7State`
dispatches chunks 1 and 2 and persists progress `(3, 3)`. -/
theorem process_scheduled_chunks_spec_witness :
    process_scheduled_chunks "2026-01-01" "t1" 2 0 c7State
      = (.batch_queued [⟨1, "b", 1⟩, ⟨2, "c", 1⟩] 3 0,
         { c7State with user_progress := some ⟨3, 3, some "t1"⟩ }) := by
  have h := process_scheduled_chunks_spec "2026-01-01" "t1" 2 0 c7State
      ⟨"u@example.com", [⟨0, "a", 1⟩, ⟨1, "b", 1⟩, ⟨2, "c", 1⟩]⟩ rfl (by decide)
  exact h

/-! ### C2 — notification idempotency -/

/-- Claim C2: calling `send_email_chunk` twice for the same
`(subject, chunk_index)` pair starting from a fresh state sends at most
one message; the marker is written only by a call whose send succeeded;
and once a call succeeded, the next call is an already-sent no-op. -/
theorem send_email_chunk_idempotent (l1 o1 l2 o2 : Bool) (s : EmailEnv)
    (hm : s.marker = false) (hc : s.messages_sent = 0) :
    ((send_email_chunk l2 o2 (send_email_chunk l1 o1 s).2).2.messages_sent ≤ 1)
    ∧ ((send_email_chunk l1 o1 s).2.marker = true → (send_email_chunk l1 o1 s).1 = .sent)
    ∧ ((send_email_chunk l1 o1 s).1 = .sent →
        (send_email_chunk l2 o2 (send_email_chunk l1 o1 s).2).1 = .already_sent
        ∧ (send_email_chunk l2 o2 (send_email_chunk l1 o1 s).2).2
            = (send_email_chunk l1 o1 s).2) := by
  obtain ⟨m, c⟩ := s
  simp only at hm hc
  subst hm hc
  revert l1 o1 l2 o2
  decide

/-- Witness for C2 with both lookups and sends succeeding. -/
theorem send_email_chunk_idempotent_witness :
    (send_email_chunk true true (send_email_chunk true true ⟨false, 0⟩).2).2.messages_sent ≤ 1 :=
  (send_email_chunk_idempotent true true true true ⟨false, 0⟩ rfl rfl).1

/-! ### C8 — merged insight set: dict lemmas -/

theorem dictGet_replace (m : List (ℕ × InsightRecord)) (k : ℕ) (v : InsightRecord)
    (k' : ℕ) :
    dictGet (m.map (fun p => if p.1 = k then (k, v) else p)) k'
      = if k' = k then (if hasKey m k then some v else none) else dictGet m k' := by
  induction m with
  | nil => simp [dictGet, hasKey]
  | cons p ps ih =>
    rcases eq_or_ne k' k with rfl | h2
    · by_cases h1 : p.1 = k'
      · simp [dictGet, hasKey, h1]
      · simp [dictGet, hasKey, h1, ih]
    · by_cases h1 : p.1 = k
      · have h3 : k ≠ k' := fun h => h2 h.symm
        simp [dictGet, hasKey, h1, h2, h3, ih]
      · by_cases h3 : p.1 = k'
        · simp [dictGet, hasKey, h1, h2, h3]
        · simp [dictGet, hasKey, h1, h2, h3, ih]

theorem dictGet_append_single (m : List (ℕ × InsightRecord)) (k : ℕ)
    (v : InsightRecord) (k' : ℕ) :
    dictGet (m ++ [(k, v)]) k'
      = match dictGet m k' with
        | some x => some x
        | none => if k = k' then some v else none := by
  induction m with
  | nil => simp [dictGet]
  | cons p ps ih => by_cases h : p.1 = k' <;> simp [dictGet, h, ih]

theorem dictGet_eq_none_of_hasKey_false (m : List (ℕ × InsightRecord)) (k : ℕ)
    (h : hasKey m k = false) : dictGet m k = none := by
  induction m with
  | nil => rfl
  | cons p ps ih =>
    by_cases h1 : p.1 = k
    · simp [hasKey, h1] at h
    · simp only [hasKey, if_neg h1] at h
      simp [dictGet, h1, ih h]

theorem dictGet_dictSet (m : List (ℕ × InsightRecord)) (k : ℕ) (v : InsightRecord)
    (k' : ℕ) :
    dictGet (dictSet m k v) k' = if k' = k then some v else dictGet m k' := by
  unfold dictSet
  by_cases hk : hasKey m k
  · rw [if_pos hk, dictGet_replace]
    by_cases h2 : k' = k <;> simp [h2, hk]
  · rw [if_neg hk, dictGet_append_single]
    rcases eq_or_ne k' k with rfl | h2
    · rw [dictGet_eq_none_of_hasKey_false m k' (Bool.eq_false_iff.mpr hk)]
    · have h3 : k ≠ k' := fun h => h2 h.symm
      cases hg : dictGet m k' <;> simp [h2, h3, hg]

theorem keys_replace (m : List (ℕ × InsightRecord)) (k : ℕ) (v : InsightRecord) :
    (m.map (fun p => if p.1 = k then (k, v) else p)).map Prod.fst = m.map Prod.fst := by
  induction m with
  | nil => rfl
  | cons p ps ih => by_cases h : p.1 = k <;> simp [h, ih]

theorem keys_dictSet (m : List (ℕ × InsightRecord)) (k : ℕ) (v : InsightRecord) :
    (dictSet m k v).map Prod.fst
      = if hasKey m k then m.map Prod.fst else m.map Prod.fst ++ [k] := by
  unfold dictSet
  split
  · exact keys_replace m k v
  · simp

theorem hasKey_iff_mem_keys (m : List (ℕ × InsightRecord)) (k : ℕ) :
    hasKey m k = true ↔ k ∈ m.map Prod.fst := by
  induction m with
  | nil => simp [hasKey]
  | cons p ps ih =>
    by_cases h : p.1 = k
    · simp [hasKey, h]
    · have h2 : k ≠ p.1 := fun hh => h hh.symm
      simp [hasKey, h, h2, ih]

theorem nodupKeys_dictSet (m : List (ℕ × InsightRecord)) (k : ℕ) (v : InsightRecord)
    (h : (m.map Prod.fst).Nodup) : ((dictSet m k v).map Prod.fst).Nodup := by
  rw [keys_dictSet]
  split
  · exact h
  · rename_i hk
    have hnm : k ∉ m.map Prod.fst := fun hm => hk ((hasKey_iff_mem_keys m k).mpr hm)
    simp [List.nodup_append, h, hnm]

theorem goodMap_dictSet (m : List (ℕ × InsightRecord)) (k : ℕ) (v : InsightRecord)
    (h : goodMap m) (hv : v.chunk_index = k) : goodMap (dictSet m k v) := by
  unfold dictSet
  split
  · intro p hp
    obtain ⟨q, hq, rfl⟩ := List.mem_map.mp hp
    by_cases h1 : q.1 = k
    · simp [h1, hv]
    · simpa [h1] using h q hq
  · intro p hp
    rcases List.mem_append.mp hp with hp | hp
    · exact h p hp
    · simp only [List.mem_singleton] at hp
      subst hp
      simpa using hv

theorem goodMap_dictGet (m : List (ℕ × InsightRecord)) (k : ℕ) (v : InsightRecord)
    (hg : goodMap m) (h : dictGet m k = some v) : v.chunk_index = k := by
  induction m with
  | nil => cases h
  | cons p ps ih =>
    by_cases h1 : p.1 = k
    · rw [dictGet, if_pos h1] at h
      obtain rfl := Option.some.inj h
      rw [hg p (List.mem_cons_self p ps), h1]
    · rw [dictGet, if_neg h1] at h
      exact ih (fun q hq => hg q (List.mem_cons_of_mem p hq)) h

theorem mem_keys_dictGet (m : List (ℕ × InsightRecord)) (k : ℕ)
    (h : k ∈ m.map Prod.fst) : ∃ v, dictGet m k = some v := by
  induction m with
  | nil => simp at h
  | cons p ps ih =>
    by_cases h1 : p.1 = k
    · exact ⟨p.2, by simp [dictGet, h1]⟩
    · have h2 : k ∈ ps.map Prod.fst := by
        rcases List.mem_cons.mp h with h3 | h3
        · exact absurd h3.symm h1
        · exact h3
      obtain ⟨v, hv⟩ := ih h2
      exact ⟨v, by simp [dictGet, h1, hv]⟩

theorem dictGet_some_mem_keys (m : List (ℕ × InsightRecord)) (k : ℕ)
    (v : InsightRecord) (h : dictGet m k = some v) : k ∈ m.map Prod.fst := by
  induction m with
  | nil => cases h
  | cons p ps ih =>
    by_cases h1 : p.1 = k
    · simp [h1.symm]
    · rw [dictGet, if_neg h1] at h
      simpa using Or.inr (ih h)

theorem dictGet_dictOfRecords (rs : List InsightRecord)
    (init : List (ℕ × InsightRecord)) (k : ℕ) :
    dictGet (dictOfRecords init rs) k
      = match lastWrite rs k with
        | some r => some r
        | none => dictGet init k := by
  induction rs generalizing init with
  | nil => simp [dictOfRecords, lastWrite]
  | cons r rs ih =>
    have hstep : dictOfRecords init (r :: rs)
        = dictOfRecords (dictSet init r.chunk_index r) rs := rfl
    rw [hstep, ih, dictGet_dictSet]
    cases hlw : lastWrite rs k
    · rcases eq_or_ne r.chunk_index k with rfl | h2
      · simp [lastWrite, hlw]
      · have h3 : k ≠ r.chunk_index := fun h => h2 h.symm
        simp [lastWrite, hlw, h2, h3]
    · simp [lastWrite, hlw]

theorem nodupKeys_dictOfRecords (rs : List InsightRecord)
    (init : List (ℕ × InsightRecord)) (h : (init.map Prod.fst).Nodup) :
    ((dictOfRecords init rs).map Prod.fst).Nodup := by
  induction rs generalizing init with
  | nil => exact h
  | cons r rs ih => exact ih _ (nodupKeys_dictSet init r.chunk_index r h)

theorem goodMap_dictOfRecords (rs : List InsightRecord)
    (init : List (ℕ × InsightRecord)) (h : goodMap init) :
    goodMap (dictOfRecords init rs) := by
  induction rs generalizing init with
  | nil => exact h
  | cons r rs ih => exact ih _ (goodMap_dictSet init r.chunk_index r h rfl)

theorem dictOfRecords_append (a b : List InsightRecord)
    (init : List (ℕ × InsightRecord)) :
    dictOfRecords init (a ++ b) = dictOfRecords (dictOfRecords init a) b := by
  simp [dictOfRecords, List.foldl_append]

theorem lastWrite_isSome (rs : List InsightRecord) (k : ℕ)
    (h : ∃ r ∈ rs, r.chunk_index = k) : ∃ x, lastWrite rs k = some x := by
  induction rs with
  | nil => simp at h
  | cons r rs ih =>
    cases hlw : lastWrite rs k
    · rcases h with ⟨r0, hr0, hk⟩
      rcases List.mem_cons.mp hr0 with rfl | hmem
      · exact ⟨r0, by simp [lastWrite, hlw, hk]⟩
      · obtain ⟨x, hx⟩ := ih ⟨r0, hmem, hk⟩
        rw [hlw] at hx
        cases hx
    · rename_i x
      exact ⟨x, by simp [lastWrite, hlw]⟩

theorem map_idx_filterMap (F : List (ℕ × InsightRecord)) (hg : goodMap F)
    (l : List ℕ) (hl : ∀ k ∈ l, k ∈ F.map Prod.fst) :
    ((l.filterMap (dictGet F)).map InsightRecord.chunk_index) = l := by
  induction l with
  | nil => rfl
  | cons k l ih =>
    obtain ⟨v, hv⟩ := mem_keys_dictGet F k (hl k (List.mem_cons_self k l))
    rw [List.filterMap_cons_some hv, List.map_cons,
      goodMap_dictGet F k v hg hv, ih (fun k2 hk2 => hl k2 (List.mem_cons_of_mem k hk2))]

/-! ### C8 — merged insight set invariant -/

/-- Core properties of the sorted-keys extraction of a well-formed dict:
strictly ordered indices, each entry is its own key lookup, and every
key is represented. -/
theorem merge_core (F : List (ℕ × InsightRecord)) (hgF : goodMap F)
    (hnd : (F.map Prod.fst).Nodup) :
    ((((F.map Prod.fst).insertionSort (· ≤ ·)).filterMap (dictGet F)).map
        InsightRecord.chunk_index).Pairwise (· < ·)
    ∧ (∀ r ∈ ((F.map Prod.fst).insertionSort (· ≤ ·)).filterMap (dictGet F),
        dictGet F r.chunk_index = some r)
    ∧ (∀ k ∈ F.map Prod.fst,
        ∃ r ∈ ((F.map Prod.fst).insertionSort (· ≤ ·)).filterMap (dictGet F),
          r.chunk_index = k) := by
  have hmemsort : ∀ k, k ∈ (F.map Prod.fst).insertionSort (· ≤ ·) ↔ k ∈ F.map Prod.fst :=
    fun k => (List.perm_insertionSort (· ≤ ·) (F.map Prod.fst)).mem_iff
  have hsortnd : ((F.map Prod.fst).insertionSort (· ≤ ·)).Nodup :=
    (List.perm_insertionSort (· ≤ ·) (F.map Prod.fst)).symm.nodup hnd
  have hsorted : ((F.map Prod.fst).insertionSort (· ≤ ·)).Sorted (· ≤ ·) :=
    List.sorted_insertionSort (· ≤ ·) (F.map Prod.fst)
  have hmapidx : ((((F.map Prod.fst).insertionSort (· ≤ ·)).filterMap (dictGet F)).map
      InsightRecord.chunk_index) = (F.map Prod.fst).insertionSort (· ≤ ·) :=
    map_idx_filterMap F hgF _ (fun k hk => (hmemsort k).mp hk)
  refine ⟨?_, ?_, ?_⟩
  · rw [hmapidx]
    exact hsorted.lt_of_le hsortnd
  · intro r hr
    obtain ⟨k, _, hget⟩ := List.mem_filterMap.mp hr
    have hci : r.chunk_index = k := goodMap_dictGet F k r hgF hget
    rw [hci]
    exact hget
  · intro k hkmem
    obtain ⟨v, hv⟩ := mem_keys_dictGet F k hkmem
    exact ⟨v, List.mem_filterMap.mpr ⟨k, (hmemsort k).mpr hkmem, hv⟩,
      goodMap_dictGet F k v hgF hv⟩

/-- Claim C8: after every merge performed by `generate_insights`, the
persisted merged insight set has at most one record per chunk index and
is strictly ordered by chunk index; every record stored is the latest
write for its index over the whole write sequence (previously stored
records followed by the fresh results, so a later result replaces an
earlier one); and every written index is represented. -/
theorem generate_insights_merge_invariant (existing results : List InsightRecord) :
    (((mergeInsights existing results).map InsightRecord.chunk_index).Pairwise (· < ·))
    ∧ (∀ r ∈ mergeInsights existing results,
        lastWrite (existing ++ results) r.chunk_index = some r)
    ∧ (∀ r0 ∈ existing ++ results,
        ∃ r ∈ mergeInsights existing results, r.chunk_index = r0.chunk_index) := by
  have hgF : goodMap (dictOfRecords [] (existing ++ results)) :=
    goodMap_dictOfRecords _ _ (fun p hp => absurd hp (List.not_mem_nil p))
  have hnd : ((dictOfRecords [] (existing ++ results)).map Prod.fst).Nodup :=
    nodupKeys_dictOfRecords _ _ List.nodup_nil
  have hcore := merge_core _ hgF hnd
  have hmerge : mergeInsights existing results
      = (((dictOfRecords [] (existing ++ results)).map Prod.fst).insertionSort
          (· ≤ ·)).filterMap (dictGet (dictOfRecords [] (existing ++ results))) := by
    simp only [mergeInsights]
    rw [dictOfRecords_append]
  refine ⟨?_, ?_, ?_⟩
  · rw [hmerge]
    exact hcore.1
  · intro r hr
    rw [hmerge] at hr
    have hget := hcore.2.1 r hr
    rw [dictGet_dictOfRecords] at hget
    cases hlw : lastWrite (existing ++ results) r.chunk_index
    · rw [hlw] at hget
      exact absurd hget (by simp [dictGet])
    · rw [hlw] at hget
      simpa using hget
  · intro r0 hr0
    obtain ⟨x, hx⟩ := lastWrite_isSome (existing ++ results) r0.chunk_index
      ⟨r0, hr0, rfl⟩
    have hget : dictGet (dictOfRecords [] (existing ++ results)) r0.chunk_index
        = some x := by
      rw [dictGet_dictOfRecords, hx]
    have hkmem := dictGet_some_mem_keys _ _ _ hget
    obtain ⟨r, hrmem, hrci⟩ := hcore.2.2 r0.chunk_index hkmem
    refine ⟨r, ?_, hrci⟩
    rw [hmerge]
    exact hrmem

/-- Concrete records for the C8 witness: indices 2 and 0 already stored,
fresh results for indices 1 and 2. -/
def c8Existing : List InsightRecord :=
  [⟨2, some "old two", none⟩, ⟨0, some "old zero", none⟩]

def c8Results : List InsightRecord :=
  [⟨1, some "new one", none⟩, ⟨2, some "new two", none⟩]

/-- Witness for C8: the record the merge keeps for index 2 is the fresh
result, i.e. the latest write for that index. -/
theorem generate_insights_merge_invariant_witness :
    lastWrite (c8Existing ++ c8Results) 2 = some ⟨2, some "new two", none⟩ :=
  (generate_insights_merge_invariant c8Existing c8Results).2.1
    ⟨2, some "new two", none⟩ (by decide)

end ReadThatPDF
